import Mathlib

/-!
Verification development for the MuyGPyS jax backend core:
distance tensor construction (`MuyGPyS/_src/gp/distance/jax.py`),
kernel evaluation (`MuyGPyS/_src/gp/kernels/jax.py`), and the batched
local solve pipeline (`MuyGPyS/_src/gp/muygps/jax.py`).

Tensors are shallowly embedded as curried functions over `Fin`-typed
axes.  The solver module is modelled over `ℚ` (exact arithmetic standing
in for floating point); the distance and kernel modules, which use
square roots, real powers and special functions, are modelled over `ℝ`.
The external special function `tfp.math.bessel_kve` is taken as a
function parameter, since it is a library collaborator rather than code
of this repository.  The numpy rank-polymorphism of `_matern_gen_fn`
(branching on `len(K.shape)`) is embedded as one definition per input
rank, mirroring the corresponding branch of the source.
-/

namespace MuyGPyS

open Matrix

/-! ## Distance module: `MuyGPyS/_src/gp/distance/jax.py` -/

/-- `_diffs(points)`: all-pairs differences along the neighbor axis,
`points[:, :, None, :] - points[:, None, :, :]`. -/
def _diffs {b n f : ℕ} (points : Fin b → Fin n → Fin f → ℝ) :
    Fin b → Fin n → Fin n → Fin f → ℝ :=
  fun p i j k => points p i k - points p j k

/-- `_crosswise_diffs(locations, points)`: `locations[:, None, :] - points`. -/
def _crosswise_diffs {b n f : ℕ} (locations : Fin b → Fin f → ℝ)
    (points : Fin b → Fin n → Fin f → ℝ) : Fin b → Fin n → Fin f → ℝ :=
  fun p i k => locations p k - points p i k

/-- `_F2(diffs)`: `sum(diffs**2, axis=-1)`, the reduction along the feature
axis, written here on one feature-axis fiber (applied pointwise over the
leading axes). -/
def _F2 {f : ℕ} (diffs : Fin f → ℝ) : ℝ :=
  ∑ k, diffs k ^ 2

/-- `_l2(diffs)`: `sqrt(_F2(diffs))`, on one feature-axis fiber. -/
noncomputable def _l2 {f : ℕ} (diffs : Fin f → ℝ) : ℝ :=
  Real.sqrt (_F2 diffs)

/-- `_pairwise_distances(data, nn_indices, metric)`: gathers
`points = data[nn_indices]`, forms all-pairs differences and reduces by
`metric`; any metric other than `"l2"` and `"F2"` raises
`ValueError(f"Metric {metric} is not supported!")`, modelled as
`Except.error`. -/
noncomputable def _pairwise_distances {p f b n : ℕ} (data : Fin p → Fin f → ℝ)
    (nn_indices : Fin b → Fin n → Fin p) (metric : String) :
    Except String (Fin b → Fin n → Fin n → ℝ) :=
  let points : Fin b → Fin n → Fin f → ℝ := fun q i => data (nn_indices q i)
  if metric = "l2" then
    Except.ok (fun q i j => _l2 (_diffs points q i j))
  else if metric = "F2" then
    Except.ok (fun q i j => _F2 (_diffs points q i j))
  else
    Except.error ("Metric " ++ metric ++ " is not supported!")

/-- `_crosswise_distances(data, nn_data, data_indices, nn_indices, metric)`:
gathers `locations = data[data_indices]` and `points = nn_data[nn_indices]`,
forms elementwise differences and reduces by `metric`; unsupported metrics
raise `ValueError(f"Metric {metric} is not supported!")`. -/
noncomputable def _crosswise_distances {dp np f b n : ℕ} (data : Fin dp → Fin f → ℝ)
    (nn_data : Fin np → Fin f → ℝ) (data_indices : Fin b → Fin dp)
    (nn_indices : Fin b → Fin n → Fin np) (metric : String) :
    Except String (Fin b → Fin n → ℝ) :=
  let locations : Fin b → Fin f → ℝ := fun q => data (data_indices q)
  let points : Fin b → Fin n → Fin f → ℝ := fun q i => nn_data (nn_indices q i)
  if metric = "l2" then
    Except.ok (fun q i => _l2 (_crosswise_diffs locations points q i))
  else if metric = "F2" then
    Except.ok (fun q i => _F2 (_crosswise_diffs locations points q i))
  else
    Except.error ("Metric " ++ metric ++ " is not supported!")

/-- `_fast_nn_update(nn_indices)`: prepends each training point's own index
to its neighbor row and drops the last neighbor:
`concatenate((arange(train_count)[:, None], nn_indices[:, :-1]), axis=1)`. -/
def _fast_nn_update {t n : ℕ} (nn_indices : Fin t → Fin (n + 1) → Fin t) :
    Fin t → Fin (n + 1) → Fin t :=
  fun r j => Fin.cases r (fun i => nn_indices r i.castSucc) j

/-- `_make_fast_regress_tensors(metric, batch_nn_indices, train_features,
train_targets)`: builds the self-prepended, last-dropped neighbor index
tensor inline, then the pairwise distance tensor over it and the target
tensor gathered by it. -/
noncomputable def _make_fast_regress_tensors {t f r n : ℕ} (metric : String)
    (batch_nn_indices : Fin t → Fin (n + 1) → Fin t)
    (train_features : Fin t → Fin f → ℝ)
    (train_targets : Fin t → Fin r → ℝ) :
    Except String ((Fin t → Fin (n + 1) → Fin (n + 1) → ℝ) ×
      (Fin t → Fin (n + 1) → Fin r → ℝ)) :=
  let batch_nn_indices_fast : Fin t → Fin (n + 1) → Fin t :=
    fun q j => Fin.cases q (fun i => batch_nn_indices q i.castSucc) j
  (_pairwise_distances train_features batch_nn_indices_fast metric).map
    (fun pairwise_dists_fast =>
      (pairwise_dists_fast,
        fun q j k => train_targets (batch_nn_indices_fast q j) k))

/-! ## Kernel module: `MuyGPyS/_src/gp/kernels/jax.py` -/

/-- Models `jax.scipy.special.gammaln` on positive arguments: the logarithm
of the Gamma function. -/
noncomputable def gammaln (x : ℝ) : ℝ :=
  Real.log (Real.Gamma x)

/-- `_rbf_fn(squared_dists)`: `exp(-squared_dists / 2)` elementwise; the
input is already a squared (F2) distance tensor. -/
noncomputable def _rbf_fn {ι : Type} (squared_dists : ι → ℝ) : ι → ℝ :=
  fun x => Real.exp (-squared_dists x / 2)

/-- `_matern_gen_fn(dists, nu)` on a rank-3 (batch × nn × nn) distance
tensor, with the external Bessel routine `tfp.math.bessel_kve` abstracted
as the parameter `kve`.  Mirrors the source's rank-3 branch: the diagonal
is set to `1.0` before `tmp = sqrt(2 nu) * K` is formed, the whole tensor
is then overwritten with `2^(1-nu)/exp(gammaln(nu))`, multiplied by
`tmp ** nu` and by `kve(nu, tmp)/exp(|tmp|)`, and the diagonal is set to
`1.0` again at the end. -/
noncomputable def _matern_gen_fn3 {b n : ℕ} (kve : ℝ → ℝ → ℝ) (nu : ℝ)
    (dists : Fin b → Fin n → Fin n → ℝ) : Fin b → Fin n → Fin n → ℝ :=
  let K0 : Fin b → Fin n → Fin n → ℝ :=
    fun q i j => if i = j then 1 else dists q i j
  let tmp : Fin b → Fin n → Fin n → ℝ :=
    fun q i j => Real.sqrt (2 * nu) * K0 q i j
  let const_val : ℝ := 2 ^ (1 - nu) / Real.exp (gammaln nu)
  let K1 : Fin b → Fin n → Fin n → ℝ := fun _ _ _ => const_val
  let K2 : Fin b → Fin n → Fin n → ℝ :=
    fun q i j => K1 q i j * tmp q i j ^ nu
  let K3 : Fin b → Fin n → Fin n → ℝ :=
    fun q i j => K2 q i j * (kve nu (tmp q i j) / Real.exp |tmp q i j|)
  fun q i j => if i = j then 1 else K3 q i j

/-- `_matern_gen_fn(dists, nu)` on a rank-2 (batch × nn) distance tensor.
Mirrors the source's rank-2 branch: no diagonal patch is applied at either
end; the tensor is overwritten with the constant and multiplied by
`tmp ** nu` and the Bessel factor, with `tmp = sqrt(2 nu) * dists`. -/
noncomputable def _matern_gen_fn2 {b n : ℕ} (kve : ℝ → ℝ → ℝ) (nu : ℝ)
    (dists : Fin b → Fin n → ℝ) : Fin b → Fin n → ℝ :=
  let tmp : Fin b → Fin n → ℝ := fun q i => Real.sqrt (2 * nu) * dists q i
  let const_val : ℝ := 2 ^ (1 - nu) / Real.exp (gammaln nu)
  let K1 : Fin b → Fin n → ℝ := fun _ _ => const_val
  let K2 : Fin b → Fin n → ℝ := fun q i => K1 q i * tmp q i ^ nu
  fun q i => K2 q i * (kve nu (tmp q i) / Real.exp |tmp q i|)

/-- `_matern_gen_fn(dists, nu)` on a rank-1 distance tensor.  Mirrors the
source's rank-1 branch: neither the diagonal patch nor the constant
overwrite fires (the latter is guarded by `len(K.shape) == 2` /
`len(K.shape) == 3`), so the original distances are multiplied by
`tmp ** nu` and the Bessel factor. -/
noncomputable def _matern_gen_fn1 {n : ℕ} (kve : ℝ → ℝ → ℝ) (nu : ℝ)
    (dists : Fin n → ℝ) : Fin n → ℝ :=
  let tmp : Fin n → ℝ := fun i => Real.sqrt (2 * nu) * dists i
  let K2 : Fin n → ℝ := fun i => dists i * tmp i ^ nu
  fun i => K2 i * (kve nu (tmp i) / Real.exp |tmp i|)

/-! ## Solver module: `MuyGPyS/_src/gp/muygps/jax.py`, over `ℚ` -/

/-- Models `jnp.linalg.solve(K, T)` for square `K`: the solution of
`K · X = T`, written with the adjugate so that it is executable; it
agrees with `K⁻¹ * T` whenever `K` is nonsingular. -/
def jnp_linalg_solve {n r : ℕ} (K : Matrix (Fin n) (Fin n) ℚ)
    (T : Matrix (Fin n) (Fin r) ℚ) : Matrix (Fin n) (Fin r) ℚ :=
  K.det⁻¹ • (K.adjugate * T)

/-- Models `jnp.linalg.solve(K, v[:, None])` followed by the reshape back
to a vector, as `_muygps_compute_diagonal_variance` uses it. -/
def jnp_linalg_solve_vec {n : ℕ} (K : Matrix (Fin n) (Fin n) ℚ)
    (v : Fin n → ℚ) : Fin n → ℚ :=
  K.det⁻¹ • (K.adjugate *ᵥ v)

/-- `_muygps_compute_solve(K, Kcross, batch_nn_targets)`: per batch
element, `Kcross.reshape(b, 1, n) @ solve(K, batch_nn_targets)` reshaped
to `(b, r)`, i.e. the row vector `Kcross[q]` times the solved system. -/
def _muygps_compute_solve {b n r : ℕ}
    (K : Fin b → Matrix (Fin n) (Fin n) ℚ) (Kcross : Fin b → Fin n → ℚ)
    (batch_nn_targets : Fin b → Matrix (Fin n) (Fin r) ℚ) :
    Fin b → Fin r → ℚ :=
  fun q => Kcross q ᵥ* jnp_linalg_solve (K q) (batch_nn_targets q)

/-- `_muygps_compute_diagonal_variance(K, Kcross)`:
`1 - sum(Kcross * solve(K, Kcross[:, :, None]).reshape(b, n), axis=1)`. -/
def _muygps_compute_diagonal_variance {b n : ℕ}
    (K : Fin b → Matrix (Fin n) (Fin n) ℚ)
    (Kcross : Fin b → Fin n → ℚ) : Fin b → ℚ :=
  fun q => 1 - ∑ j, Kcross q j * jnp_linalg_solve_vec (K q) (Kcross q) j

/-- `_muygps_fast_regress_solve(Kcross, coeffs_tensor)`:
`einsum("ij,ijk->ik", Kcross, coeffs_tensor)`. -/
def _muygps_fast_regress_solve {b n r : ℕ} (Kcross : Fin b → Fin n → ℚ)
    (coeffs_tensor : Fin b → Matrix (Fin n) (Fin r) ℚ) :
    Fin b → Fin r → ℚ :=
  fun i k => ∑ j, Kcross i j * coeffs_tensor i j k

/-- `_muygps_fast_regress_precompute(K, train_nn_targets_fast)`:
`solve(K, train_nn_targets_fast)` per batch element. -/
def _muygps_fast_regress_precompute {b n r : ℕ}
    (K : Fin b → Matrix (Fin n) (Fin n) ℚ)
    (train_nn_targets_fast : Fin b → Matrix (Fin n) (Fin r) ℚ) :
    Fin b → Matrix (Fin n) (Fin r) ℚ :=
  fun q => jnp_linalg_solve (K q) (train_nn_targets_fast q)

/-- Positive semi-definiteness of a rational matrix, as nonnegativity of
its quadratic form. -/
def isPSD {ι : Type} [Fintype ι] (M : Matrix ι ι ℚ) : Prop :=
  ∀ x : ι → ℚ, 0 ≤ x ⬝ᵥ (M *ᵥ x)

/-- The joint correlation matrix extending `K` by the query point with
prior variance 1: `K` bordered by the cross-correlation vector `c` and a
unit corner. -/
def extendedCorrMatrix {n : ℕ} (K : Matrix (Fin n) (Fin n) ℚ)
    (c : Fin n → ℚ) : Matrix (Fin n ⊕ Fin 1) (Fin n ⊕ Fin 1) ℚ :=
  Matrix.fromBlocks K (Matrix.of fun i _ => c i) (Matrix.of fun _ j => c j)
    (Matrix.of fun _ _ => 1)

/-! ## Concrete inputs used by witness theorems -/

/-- Concrete nonsingular covariance batch for the solver witnesses. -/
def Kw : Fin 1 → Matrix (Fin 1) (Fin 1) ℚ := fun _ => !![2]

/-- Concrete neighbor-target batch for the solver witnesses. -/
def Tw : Fin 1 → Matrix (Fin 1) (Fin 1) ℚ := fun _ => !![4]

/-- Concrete cross-covariance batch for the solver witnesses. -/
def cwv : Fin 1 → Fin 1 → ℚ := fun _ _ => 3

/-- Concrete unit-diagonal covariance batch for the variance witness. -/
def Kw3 : Fin 1 → Matrix (Fin 1) (Fin 1) ℚ := fun _ => !![1]

/-- Concrete valid cross-correlation batch for the variance witness. -/
def cw3 : Fin 1 → Fin 1 → ℚ := fun _ _ => 1 / 2


/-- Stand-in for the abstract Bessel parameter in witnesses. -/
def kve0 : ℝ → ℝ → ℝ := fun _ _ => 0

/-- A concrete 1 × 2 × 2 distance tensor: zero diagonal, ones off it. -/
def distsW3 : Fin 1 → Fin 2 → Fin 2 → ℝ :=
  fun _ i j => if i = j then 0 else 1

/-- A concrete all-zero rank-2 distance tensor. -/
def distsW2 : Fin 1 → Fin 1 → ℝ := fun _ _ => 0

/-- A concrete all-zero rank-1 distance tensor. -/
def distsW1 : Fin 1 → ℝ := fun _ => 0

/-- A concrete all-zero squared-distance tensor for the RBF witness. -/
def sqdistsW : Fin 1 → ℝ := fun _ => 0

/-! ## Theorems for the distance claims -/

/-- C8: for every feature matrix and neighbor-index tensor, the pairwise
distance tensor under metric `"l2"` is the one built from `_l2` over
`_diffs` of the gathered points, and it is symmetric in the last two axes
with zero diagonal. -/
theorem pairwise_l2_symm_diag_zero {p f b n : ℕ} (data : Fin p → Fin f → ℝ)
    (nn_indices : Fin b → Fin n → Fin p) :
    _pairwise_distances data nn_indices "l2" =
      Except.ok (fun q i j =>
        _l2 (_diffs (fun q i => data (nn_indices q i)) q i j)) ∧
    ∀ q i j, _l2 (_diffs (fun q i => data (nn_indices q i)) q i j) =
        _l2 (_diffs (fun q i => data (nn_indices q i)) q j i) ∧
      _l2 (_diffs (fun q i => data (nn_indices q i)) q i i) = 0 := by
  constructor
  · rfl
  · intro q i j
    constructor
    · unfold _l2 _F2 _diffs
      congr 1
      apply Finset.sum_congr rfl
      intro k _
      ring
    · unfold _l2 _F2 _diffs
      simp

/-- C9: for every feature matrix and neighbor-index tensor, the pairwise
distances under `"F2"` are the elementwise squares of those under `"l2"`:
both dispatch branches succeed, and `_F2 = _l2 ^ 2` pointwise. -/
theorem pairwise_F2_eq_l2_sq {p f b n : ℕ} (data : Fin p → Fin f → ℝ)
    (nn_indices : Fin b → Fin n → Fin p) :
    _pairwise_distances data nn_indices "F2" =
      Except.ok (fun q i j =>
        _F2 (_diffs (fun q i => data (nn_indices q i)) q i j)) ∧
    _pairwise_distances data nn_indices "l2" =
      Except.ok (fun q i j =>
        _l2 (_diffs (fun q i => data (nn_indices q i)) q i j)) ∧
    ∀ q i j, _F2 (_diffs (fun q i => data (nn_indices q i)) q i j) =
      _l2 (_diffs (fun q i => data (nn_indices q i)) q i j) ^ 2 := by
  refine ⟨rfl, rfl, ?_⟩
  intro q i j
  rw [_l2, Real.sq_sqrt]
  apply Finset.sum_nonneg
  intro k _
  positivity

/-- C7: for every metric string other than `"l2"` and `"F2"`, both
`_pairwise_distances` and `_crosswise_distances` fail with a ValueError
whose message names the offending metric value. -/
theorem unsupported_metric_raises {p f b n : ℕ} (metric : String)
    (h1 : metric ≠ "l2") (h2 : metric ≠ "F2")
    (data : Fin p → Fin f → ℝ) (nn_indices : Fin b → Fin n → Fin p)
    (nn_data : Fin p → Fin f → ℝ) (data_indices : Fin b → Fin p) :
    _pairwise_distances data nn_indices metric =
      Except.error ("Metric " ++ metric ++ " is not supported!") ∧
    _crosswise_distances data nn_data data_indices nn_indices metric =
      Except.error ("Metric " ++ metric ++ " is not supported!") := by
  constructor
  · rw [_pairwise_distances, if_neg h1, if_neg h2]
  · rw [_crosswise_distances, if_neg h1, if_neg h2]

/-- Witness for C7 at the concrete unsupported metric `"cosine"`. -/
theorem unsupported_metric_raises_witness :
    "cosine" ≠ "l2" ∧ "cosine" ≠ "F2" ∧
    (_pairwise_distances ((fun _ _ => (0 : ℝ)) : Fin 1 → Fin 1 → ℝ)
        ((fun _ _ => 0) : Fin 1 → Fin 1 → Fin 1) "cosine" =
      Except.error ("Metric " ++ "cosine" ++ " is not supported!") ∧
    _crosswise_distances ((fun _ _ => (0 : ℝ)) : Fin 1 → Fin 1 → ℝ)
        ((fun _ _ => (0 : ℝ)) : Fin 1 → Fin 1 → ℝ)
        ((fun _ => 0) : Fin 1 → Fin 1)
        ((fun _ _ => 0) : Fin 1 → Fin 1 → Fin 1) "cosine" =
      Except.error ("Metric " ++ "cosine" ++ " is not supported!")) :=
  ⟨by decide, by decide,
    unsupported_metric_raises "cosine" (by decide) (by decide) _ _ _ _⟩

/-- C6: the fast-update index transform maps row `r` to `[r]` followed by
the first `nn_count - 1` entries of input row `r`, and
`_make_fast_regress_tensors` builds its pairwise distance tensor and its
gathered target tensor from exactly this transformed index tensor. -/
theorem fast_nn_update_spec {t f r n : ℕ} (metric : String)
    (nn_indices : Fin t → Fin (n + 1) → Fin t)
    (train_features : Fin t → Fin f → ℝ)
    (train_targets : Fin t → Fin r → ℝ) :
    (∀ q, _fast_nn_update nn_indices q 0 = q ∧
      ∀ j : Fin n, _fast_nn_update nn_indices q j.succ =
        nn_indices q j.castSucc) ∧
    _make_fast_regress_tensors metric nn_indices train_features
        train_targets =
      (_pairwise_distances train_features (_fast_nn_update nn_indices)
          metric).map
        (fun pairwise_dists_fast =>
          (pairwise_dists_fast,
            fun q j k =>
              train_targets (_fast_nn_update nn_indices q j) k)) := by
  refine ⟨fun q => ⟨rfl, fun j => ?_⟩, rfl⟩
  rw [_fast_nn_update]
  simp

/-! ## Theorems for the kernel claims -/

/-- C5: the RBF kernel maps each entry of its squared-distance input to
`exp(-d²/2)` where `d²` is that entry; in particular a zero F2 distance
yields exactly 1. -/
theorem rbf_fn_spec {ι : Type} (squared_dists : ι → ℝ) (x : ι) :
    (∀ d : ℝ, squared_dists x = d ^ 2 →
      _rbf_fn squared_dists x = Real.exp (-(d ^ 2) / 2)) ∧
    (squared_dists x = 0 → _rbf_fn squared_dists x = 1) := by
  constructor
  · intro d hd
    rw [_rbf_fn, hd]
  · intro h0
    rw [_rbf_fn, h0]
    simp

/-- Witness for C5 at the all-zero squared-distance tensor. -/
theorem rbf_fn_spec_witness :
    (sqdistsW 0 = (0 : ℝ) ^ 2 ∧ sqdistsW 0 = 0) ∧
    _rbf_fn sqdistsW 0 = Real.exp (-((0 : ℝ) ^ 2) / 2) ∧
    _rbf_fn sqdistsW 0 = 1 :=
  ⟨⟨by norm_num [sqdistsW], rfl⟩,
    (rbf_fn_spec sqdistsW 0).1 0 (by norm_num [sqdistsW]),
    (rbf_fn_spec sqdistsW 0).2 rfl⟩

/-- C4: on a rank-3 distance tensor the general Matérn kernel has every
diagonal entry exactly 1, and every off-diagonal entry at positive
distance `d` equals `2^(1-ν)/Γ(ν) · t^ν · (kve ν t / exp |t|)` with
`t = sqrt(2ν)·d`. -/
theorem matern_gen_diag_one_offdiag {b n : ℕ} (kve : ℝ → ℝ → ℝ) (nu : ℝ)
    (hnu : 0 < nu) (dists : Fin b → Fin n → Fin n → ℝ) :
    (∀ q i, _matern_gen_fn3 kve nu dists q i i = 1) ∧
    ∀ q i j, i ≠ j → 0 < dists q i j →
      _matern_gen_fn3 kve nu dists q i j =
        2 ^ (1 - nu) / Real.Gamma nu *
          (Real.sqrt (2 * nu) * dists q i j) ^ nu *
          (kve nu (Real.sqrt (2 * nu) * dists q i j) /
            Real.exp |Real.sqrt (2 * nu) * dists q i j|) := by
  constructor
  · intro q i
    simp [_matern_gen_fn3]
  · intro q i j hij _
    have hg : Real.exp (gammaln nu) = Real.Gamma nu :=
      Real.exp_log (Real.Gamma_pos_of_pos hnu)
    simp only [_matern_gen_fn3, if_neg hij, hg]

/-- Witness for C4 at `ν = 1` and the concrete tensor `distsW3`. -/
theorem matern_gen_diag_one_offdiag_witness :
    ((0 : ℝ) < 1 ∧ (0 : Fin 2) ≠ 1 ∧ (0 : ℝ) < distsW3 0 0 1) ∧
    _matern_gen_fn3 kve0 1 distsW3 0 0 0 = 1 ∧
    _matern_gen_fn3 kve0 1 distsW3 0 0 1 =
      2 ^ (1 - (1 : ℝ)) / Real.Gamma 1 *
        (Real.sqrt (2 * 1) * distsW3 0 0 1) ^ (1 : ℝ) *
        (kve0 1 (Real.sqrt (2 * 1) * distsW3 0 0 1) /
          Real.exp |Real.sqrt (2 * 1) * distsW3 0 0 1|) :=
  ⟨⟨by norm_num, by decide, by norm_num [distsW3]⟩,
    (matern_gen_diag_one_offdiag kve0 1 (by norm_num) distsW3).1 0 0,
    (matern_gen_diag_one_offdiag kve0 1 (by norm_num) distsW3).2 0 0 1
      (by decide) (by norm_num [distsW3])⟩

/-- C10: the zero-distance patch of the general Matérn kernel fires only
for rank-3 tensors.  On rank-2 and rank-1 tensors a zero-distance entry is
passed directly into the Bessel factor at `t = 0` and is not forced to
`1.0`: for `ν > 0` the result is `0`, not `1`. -/
theorem matern_gen_low_rank_unpatched {b n m : ℕ} (kve : ℝ → ℝ → ℝ)
    (nu : ℝ) (hnu : 0 < nu) (dists2 : Fin b → Fin n → ℝ)
    (dists1 : Fin m → ℝ) (q : Fin b) (i : Fin n) (k : Fin m)
    (h2 : dists2 q i = 0) (h1 : dists1 k = 0) :
    _matern_gen_fn2 kve nu dists2 q i =
      2 ^ (1 - nu) / Real.exp (gammaln nu) * (0 : ℝ) ^ nu *
        (kve nu 0 / Real.exp |(0 : ℝ)|) ∧
    _matern_gen_fn2 kve nu dists2 q i = 0 ∧
    _matern_gen_fn2 kve nu dists2 q i ≠ 1 ∧
    _matern_gen_fn1 kve nu dists1 k =
      0 * (0 : ℝ) ^ nu * (kve nu 0 / Real.exp |(0 : ℝ)|) ∧
    _matern_gen_fn1 kve nu dists1 k = 0 := by
  have hz : (0 : ℝ) ^ nu = 0 := Real.zero_rpow (ne_of_gt hnu)
  have e2 : _matern_gen_fn2 kve nu dists2 q i =
      2 ^ (1 - nu) / Real.exp (gammaln nu) * (0 : ℝ) ^ nu *
        (kve nu 0 / Real.exp |(0 : ℝ)|) := by
    simp only [_matern_gen_fn2, h2, mul_zero]
  have e1 : _matern_gen_fn1 kve nu dists1 k =
      0 * (0 : ℝ) ^ nu * (kve nu 0 / Real.exp |(0 : ℝ)|) := by
    simp only [_matern_gen_fn1, h1, mul_zero]
  have e20 : _matern_gen_fn2 kve nu dists2 q i = 0 := by
    rw [e2, hz, mul_zero, zero_mul]
  refine ⟨e2, e20, ?_, e1, ?_⟩
  · rw [e20]
    norm_num
  · rw [e1, hz, mul_zero, zero_mul]

/-- Witness for C10 at `ν = 1` and the all-zero tensors. -/
theorem matern_gen_low_rank_unpatched_witness :
    ((0 : ℝ) < 1 ∧ distsW2 0 0 = 0 ∧ distsW1 0 = 0) ∧
    (_matern_gen_fn2 kve0 1 distsW2 0 0 =
      2 ^ (1 - (1 : ℝ)) / Real.exp (gammaln 1) * (0 : ℝ) ^ (1 : ℝ) *
        (kve0 1 0 / Real.exp |(0 : ℝ)|) ∧
    _matern_gen_fn2 kve0 1 distsW2 0 0 = 0 ∧
    _matern_gen_fn2 kve0 1 distsW2 0 0 ≠ 1 ∧
    _matern_gen_fn1 kve0 1 distsW1 0 =
      0 * (0 : ℝ) ^ (1 : ℝ) * (kve0 1 0 / Real.exp |(0 : ℝ)|) ∧
    _matern_gen_fn1 kve0 1 distsW1 0 = 0) :=
  ⟨⟨by norm_num, rfl, rfl⟩,
    matern_gen_low_rank_unpatched kve0 1 (by norm_num) distsW2 distsW1
      0 0 0 rfl rfl⟩

/-! ## Theorems for the solver claims -/

/-- The modelled `jnp.linalg.solve` agrees with multiplication by the
matrix inverse (over the field `ℚ` this needs no hypothesis, since
Mathlib's nonsingular inverse uses the same adjugate formula). -/
theorem jnp_linalg_solve_eq_inv_mul {n r : ℕ}
    (K : Matrix (Fin n) (Fin n) ℚ) (T : Matrix (Fin n) (Fin r) ℚ) :
    jnp_linalg_solve K T = K⁻¹ * T := by
  rw [jnp_linalg_solve, Matrix.inv_def, Ring.inverse_eq_inv,
    Matrix.smul_mul]

/-- On a nonsingular matrix, the modelled `jnp.linalg.solve` really
solves the linear system. -/
theorem mul_jnp_linalg_solve {n r : ℕ} {K : Matrix (Fin n) (Fin n) ℚ}
    (hdet : IsUnit K.det) (T : Matrix (Fin n) (Fin r) ℚ) :
    K * jnp_linalg_solve K T = T := by
  rw [jnp_linalg_solve_eq_inv_mul, ← Matrix.mul_assoc,
    Matrix.mul_nonsing_inv K hdet, Matrix.one_mul]

/-- Vector form of `jnp_linalg_solve_eq_inv_mul`. -/
theorem jnp_linalg_solve_vec_eq_inv_mulVec {n : ℕ}
    (K : Matrix (Fin n) (Fin n) ℚ) (v : Fin n → ℚ) :
    jnp_linalg_solve_vec K v = K⁻¹ *ᵥ v := by
  rw [jnp_linalg_solve_vec, Matrix.inv_def, Ring.inverse_eq_inv,
    Matrix.smul_mulVec_assoc]

/-- Vector form of `mul_jnp_linalg_solve`. -/
theorem mulVec_jnp_linalg_solve_vec {n : ℕ}
    {K : Matrix (Fin n) (Fin n) ℚ} (hdet : IsUnit K.det) (v : Fin n → ℚ) :
    K *ᵥ jnp_linalg_solve_vec K v = v := by
  rw [jnp_linalg_solve_vec_eq_inv_mulVec, Matrix.mulVec_mulVec,
    Matrix.mul_nonsing_inv K hdet, Matrix.one_mulVec]

/-- The quadratic form of the extended correlation matrix, evaluated on a
block vector. -/
theorem extendedCorr_quadForm {n : ℕ} (K : Matrix (Fin n) (Fin n) ℚ)
    (c : Fin n → ℚ) (x : Fin n → ℚ) (t : ℚ) :
    Sum.elim x (fun _ => t) ⬝ᵥ
        (extendedCorrMatrix K c *ᵥ Sum.elim x (fun _ => t)) =
      x ⬝ᵥ (K *ᵥ x) + 2 * t * (c ⬝ᵥ x) + t ^ 2 := by
  have hB : (Matrix.of fun i (_ : Fin 1) => c i) *ᵥ (fun _ => t) =
      fun i => c i * t := by
    funext i
    simp [Matrix.mulVec, Matrix.dotProduct]
  have hC : (Matrix.of fun (_ : Fin 1) j => c j) *ᵥ x =
      fun _ => c ⬝ᵥ x := by
    funext i
    simp [Matrix.mulVec, Matrix.dotProduct]
  have hD : (Matrix.of fun (_ : Fin 1) (_ : Fin 1) => (1 : ℚ)) *ᵥ
      (fun _ => t) = fun _ => t := by
    funext i
    simp [Matrix.mulVec, Matrix.dotProduct]
  rw [extendedCorrMatrix, Matrix.fromBlocks_mulVec,
    Matrix.sum_elim_dotProduct_sum_elim]
  simp only [Sum.elim_comp_inl, Sum.elim_comp_inr]
  rw [hB, hC, hD, Matrix.dotProduct_add, Matrix.dotProduct_add]
  simp only [Matrix.dotProduct, Fin.sum_univ_one]
  have hx : ∑ i, x i * (c i * t) = t * ∑ i, c i * x i := by
    rw [Finset.mul_sum]
    apply Finset.sum_congr rfl
    intro i _
    ring
  rw [hx]
  ring

/-- C2: `_muygps_compute_solve` solves `K · X = targets` per batch element
(rather than forming an explicit inverse), and its `q`-th output row
equals `Kcross[q] · K[q]⁻¹ · targets[q]`. -/
theorem compute_solve_spec {b n r : ℕ}
    (K : Fin b → Matrix (Fin n) (Fin n) ℚ) (Kcross : Fin b → Fin n → ℚ)
    (T : Fin b → Matrix (Fin n) (Fin r) ℚ)
    (hdet : ∀ q, IsUnit (K q).det) :
    (∀ q, K q * jnp_linalg_solve (K q) (T q) = T q) ∧
    ∀ q k, _muygps_compute_solve K Kcross T q k =
      (Kcross q ᵥ* ((K q)⁻¹ * T q)) k := by
  constructor
  · intro q
    exact mul_jnp_linalg_solve (hdet q) (T q)
  · intro q k
    rw [_muygps_compute_solve, jnp_linalg_solve_eq_inv_mul (K q) (T q)]

/-- Witness for C2 on a concrete nonsingular 1×1 batch. -/
theorem compute_solve_spec_witness :
    (∀ q : Fin 1, IsUnit (Kw q).det) ∧
    ((∀ q, Kw q * jnp_linalg_solve (Kw q) (Tw q) = Tw q) ∧
    ∀ q k, _muygps_compute_solve Kw cwv Tw q k =
      (cwv q ᵥ* ((Kw q)⁻¹ * Tw q)) k) := by
  have hdet : ∀ q : Fin 1, IsUnit (Kw q).det := by
    intro q
    rw [show (Kw q).det = 2 from by simp [Kw, Matrix.det_fin_one]]
    exact isUnit_iff_ne_zero.mpr (by norm_num)
  exact ⟨hdet, compute_solve_spec Kw cwv Tw hdet⟩

/-- C1: on nonsingular covariance batches, the fast-precompute solve
followed by the fast-regress contraction yields exactly the direct batched
solve `Kcross · K⁻¹ · targets` of `_muygps_compute_solve`. -/
theorem fast_regress_refines_solve {b n r : ℕ}
    (K : Fin b → Matrix (Fin n) (Fin n) ℚ) (Kcross : Fin b → Fin n → ℚ)
    (T : Fin b → Matrix (Fin n) (Fin r) ℚ)
    (hdet : ∀ q, IsUnit (K q).det) :
    _muygps_fast_regress_solve Kcross
        (_muygps_fast_regress_precompute K T) =
      _muygps_compute_solve K Kcross T := by
  funext q k
  rw [_muygps_fast_regress_solve, _muygps_fast_regress_precompute,
    _muygps_compute_solve]
  simp [Matrix.vecMul, Matrix.dotProduct]

/-- Witness for C1 on a concrete nonsingular 1×1 batch. -/
theorem fast_regress_refines_solve_witness :
    (∀ q : Fin 1, IsUnit (Kw q).det) ∧
    _muygps_fast_regress_solve cwv (_muygps_fast_regress_precompute Kw Tw) =
      _muygps_compute_solve Kw cwv Tw := by
  have hdet : ∀ q : Fin 1, IsUnit (Kw q).det := by
    intro q
    rw [show (Kw q).det = 2 from by simp [Kw, Matrix.det_fin_one]]
    exact isUnit_iff_ne_zero.mpr (by norm_num)
  exact ⟨hdet, fast_regress_refines_solve Kw cwv Tw hdet⟩

/-- C3: on a batch element whose covariance is symmetric, nonsingular and
unit-diagonal, and whose extension by the query point (prior variance 1)
is PSD, the diagonal variance equals `1 - Kcross · K⁻¹ · Kcross` and lies
in `[0, 1]`. -/
theorem diagonal_variance_spec {b n : ℕ}
    (K : Fin b → Matrix (Fin n) (Fin n) ℚ) (Kcross : Fin b → Fin n → ℚ)
    (q : Fin b) (hsym : (K q)ᵀ = K q) (hdet : IsUnit (K q).det)
    (hdiag : ∀ i, K q i i = 1)
    (hpsd : isPSD (extendedCorrMatrix (K q) (Kcross q))) :
    _muygps_compute_diagonal_variance K Kcross q =
      1 - Kcross q ⬝ᵥ ((K q)⁻¹ *ᵥ Kcross q) ∧
    0 ≤ _muygps_compute_diagonal_variance K Kcross q ∧
    _muygps_compute_diagonal_variance K Kcross q ≤ 1 := by
  have hKs : K q *ᵥ jnp_linalg_solve_vec (K q) (Kcross q) = Kcross q :=
    mulVec_jnp_linalg_solve_vec hdet (Kcross q)
  have hvar : _muygps_compute_diagonal_variance K Kcross q =
      1 - Kcross q ⬝ᵥ jnp_linalg_solve_vec (K q) (Kcross q) := rfl
  have hform : _muygps_compute_diagonal_variance K Kcross q =
      1 - Kcross q ⬝ᵥ ((K q)⁻¹ *ᵥ Kcross q) := by
    rw [hvar, jnp_linalg_solve_vec_eq_inv_mulVec]
  have hcomm : Kcross q ⬝ᵥ jnp_linalg_solve_vec (K q) (Kcross q) =
      jnp_linalg_solve_vec (K q) (Kcross q) ⬝ᵥ Kcross q :=
    Matrix.dotProduct_comm _ _
  have hlow : 0 ≤ 1 - Kcross q ⬝ᵥ jnp_linalg_solve_vec (K q) (Kcross q) := by
    have h := hpsd (Sum.elim (-(jnp_linalg_solve_vec (K q) (Kcross q)))
      (fun _ => 1))
    rw [extendedCorr_quadForm] at h
    rw [Matrix.mulVec_neg, hKs, Matrix.dotProduct_neg, Matrix.neg_dotProduct,
      Matrix.dotProduct_neg, neg_neg] at h
    nlinarith [h, hcomm]
  have hup : 0 ≤ Kcross q ⬝ᵥ jnp_linalg_solve_vec (K q) (Kcross q) := by
    have h := hpsd (Sum.elim (jnp_linalg_solve_vec (K q) (Kcross q))
      (fun _ => 0))
    rw [extendedCorr_quadForm] at h
    rw [hKs] at h
    nlinarith [h, hcomm]
  refine ⟨hform, ?_, ?_⟩
  · rw [hvar]
    linarith
  · rw [hvar]
    linarith

/-- Witness for C3 on the concrete correlation batch `Kw3`, `cw3`. -/
theorem diagonal_variance_spec_witness :
    ((Kw3 0)ᵀ = Kw3 0 ∧ IsUnit (Kw3 0).det ∧ (∀ i, Kw3 0 i i = 1) ∧
      isPSD (extendedCorrMatrix (Kw3 0) (cw3 0))) ∧
    (_muygps_compute_diagonal_variance Kw3 cw3 0 =
        1 - cw3 0 ⬝ᵥ ((Kw3 0)⁻¹ *ᵥ cw3 0) ∧
      0 ≤ _muygps_compute_diagonal_variance Kw3 cw3 0 ∧
      _muygps_compute_diagonal_variance Kw3 cw3 0 ≤ 1) := by
  have hsym : (Kw3 0)ᵀ = Kw3 0 := by
    ext i j
    fin_cases i
    fin_cases j
    rfl
  have hdet : IsUnit (Kw3 0).det := by
    rw [show (Kw3 0).det = 1 from by simp [Kw3, Matrix.det_fin_one]]
    exact isUnit_one
  have hdiag : ∀ i, Kw3 0 i i = 1 := by
    intro i
    fin_cases i
    rfl
  have hpsd : isPSD (extendedCorrMatrix (Kw3 0) (cw3 0)) := by
    intro x
    simp [extendedCorrMatrix, Kw3, cw3, Matrix.dotProduct, Matrix.mulVec,
      Fintype.sum_sum_type]
    nlinarith [sq_nonneg (x (Sum.inl 0) + x (Sum.inr 0)),
      sq_nonneg (x (Sum.inl 0)), sq_nonneg (x (Sum.inr 0))]
  exact ⟨⟨hsym, hdet, hdiag, hpsd⟩,
    diagonal_variance_spec Kw3 cw3 0 hsym hdet hdiag hpsd⟩

end MuyGPyS
